import Mathlib

/-!
Shallow embedding of the GuessTheSignal PET-imaging core
(game/physics.py, game/utils.py, game/image_matrix.py,
game/shape_generator.py, game/constants.py), with theorems checking the
design document's claims against it.

Conventions of the embedding:
* Python floats are modelled as exact rationals where the code only uses
  field operations and comparisons, and as real numbers where the code
  uses square roots or trigonometric/exponential functions.
* Python division raising ZeroDivisionError is modelled by returning
  Option.none from the enclosing function.
* Python's int(x) conversion (truncation toward zero) is modelled by pyInt.
-/

/-- Python's int(x) applied to a float: truncation toward zero. -/
def pyInt {K : Type*} [LinearOrderedField K] [FloorRing K] (x : K) : ℤ :=
  if 0 ≤ x then ⌊x⌋ else ⌈x⌉

/-- Constant TOF_MIN_DELAY from game/constants.py (milliseconds). -/
def TOF_MIN_DELAY : ℤ := 50

/-- Constant TOF_MAX_DELAY from game/constants.py (milliseconds). -/
def TOF_MAX_DELAY : ℤ := 500

/-- The delay difference computed inside PETPhysics.calculate_tof_delays
(lines 93-97 of game/physics.py):
int(TOF_MIN_DELAY + min(abs(dist1-dist2)/max_possible_distance, 1.0) *
(TOF_MAX_DELAY - TOF_MIN_DELAY)). -/
def tofDelayDiff (dist1 dist2 max_possible_distance : ℚ) : ℤ :=
  pyInt ((TOF_MIN_DELAY : ℚ) +
    min (|dist1 - dist2| / max_possible_distance) 1 *
      ((TOF_MAX_DELAY : ℚ) - (TOF_MIN_DELAY : ℚ)))

/-- PETPhysics.calculate_tof_delays (game/physics.py lines 82-103).
Returns none when max_possible_distance = 0, where the Python code raises
ZeroDivisionError at the division diff / max_possible_distance. -/
def calculate_tof_delays (dist1 dist2 max_possible_distance : ℚ) :
    Option (ℤ × ℤ) :=
  if max_possible_distance = 0 then none
  else if dist1 ≤ dist2 then some (0, tofDelayDiff dist1 dist2 max_possible_distance)
  else some (tofDelayDiff dist1 dist2 max_possible_distance, 0)

/-- A 2D boolean numpy array of shape (rows, cols): entries outside the
shape are irrelevant (never read by the embedded operations). -/
structure Mask where
  rows : ℕ
  cols : ℕ
  data : ℕ → ℕ → Bool

/-- np.sum of a boolean mask: the number of True cells. -/
def maskCount (m : Mask) : ℕ :=
  ∑ r ∈ Finset.range m.rows, ∑ c ∈ Finset.range m.cols,
    (if m.data r c then 1 else 0)

/-- np.sum(m1 & m2) for two masks of the same shape (indexed by m1's). -/
def maskInterCount (m1 m2 : Mask) : ℕ :=
  ∑ r ∈ Finset.range m1.rows, ∑ c ∈ Finset.range m1.cols,
    (if m1.data r c && m2.data r c then 1 else 0)

/-- The guessed-pixel mask built by calculate_dice_score (game/physics.py
lines 170-173): np.zeros_like(true_mask), then set True at each
(row, col) in guessed_pixels with 0 <= row < rows and 0 <= col < cols. -/
def guessedMask (true_mask : Mask) (guessed_pixels : Finset (ℤ × ℤ)) : Mask :=
  ⟨true_mask.rows, true_mask.cols, fun r c =>
    decide (((r : ℤ), (c : ℤ)) ∈ guessed_pixels ∧
      r < true_mask.rows ∧ c < true_mask.cols)⟩

/-- calculate_dice_score (game/physics.py lines 164-184). -/
def calculate_dice_score (true_mask : Mask) (guessed_pixels : Finset (ℤ × ℤ)) :
    ℚ :=
  let guessed_mask := guessedMask true_mask guessed_pixels
  let intersection := maskInterCount true_mask guessed_mask
  let size_a := maskCount true_mask
  let size_b := maskCount guessed_mask
  if size_a + size_b = 0 then 1
  else 2 * intersection / ((size_a : ℚ) + (size_b : ℚ))

/-- A (row, col) pair of integers addresses a cell of the mask. -/
def maskInBounds (m : Mask) (p : ℤ × ℤ) : Prop :=
  0 ≤ p.1 ∧ p.1 < m.rows ∧ 0 ≤ p.2 ∧ p.2 < m.cols

instance (m : Mask) (p : ℤ × ℤ) : Decidable (maskInBounds m p) := by
  unfold maskInBounds; infer_instance

/-- The set of (row, col) cells of the mask holding True, as integer pairs
(the mathematical set the spec's Dice formula speaks about). -/
def trueCells (m : Mask) : Finset (ℤ × ℤ) :=
  ((Finset.range m.rows ×ˢ Finset.range m.cols).filter
    (fun p => m.data p.1 p.2)).image (fun p => ((p.1 : ℤ), (p.2 : ℤ)))

/-- ImageMatrix (game/image_matrix.py): the grid of pixels, determined by
its size, screen center and pixel size. The coordinate field K is ℚ for
the executable claims and ℝ where the physics needs square roots. -/
structure ImageMatrix (K : Type*) where
  grid_size : ℤ
  center : K × K
  pixel_size : K

/-- ImageMatrix.top_left computed in __init__ (game/image_matrix.py
lines 17-22). -/
def ImageMatrix.topLeft {K : Type*} [LinearOrderedField K]
    (m : ImageMatrix K) : K × K :=
  ((m.center.1 - (m.grid_size : K) * m.pixel_size / 2),
   (m.center.2 - (m.grid_size : K) * m.pixel_size / 2))

/-- ImageMatrix.screen_to_pixel (game/image_matrix.py lines 40-58). -/
def screen_to_pixel {K : Type*} [LinearOrderedField K] [FloorRing K]
    (m : ImageMatrix K) (screen_x screen_y : K) : Option (ℤ × ℤ) :=
  let rel_x := screen_x - m.topLeft.1
  let rel_y := screen_y - m.topLeft.2
  let total_size := (m.grid_size : K) * m.pixel_size
  if rel_x < 0 ∨ total_size ≤ rel_x ∨ rel_y < 0 ∨ total_size ≤ rel_y then
    none
  else
    let col := pyInt (rel_x / m.pixel_size)
    let row := pyInt (rel_y / m.pixel_size)
    some (max 0 (min (m.grid_size - 1) row), max 0 (min (m.grid_size - 1) col))

/-- First loop of normalize_angle (game/utils.py lines 14-15):
while angle < 0: angle += 2*pi. -/
noncomputable def normLoopNeg (angle : ℝ) : ℝ :=
  if angle < 0 then normLoopNeg (angle + 2 * Real.pi) else angle
termination_by Nat.ceil (-angle / (2 * Real.pi))
decreasing_by
  rename_i h
  have h2 : (0:ℝ) < 2 * Real.pi := Real.two_pi_pos
  have hu : 0 < -angle / (2 * Real.pi) := div_pos (by linarith) h2
  have h1 : 0 < Nat.ceil (-angle / (2 * Real.pi)) := Nat.ceil_pos.mpr hu
  have heq : -(angle + 2 * Real.pi) / (2 * Real.pi) =
      -angle / (2 * Real.pi) - 1 := by
    field_simp
    ring
  rw [heq]
  have hcast : ((Nat.ceil (-angle / (2 * Real.pi)) - 1 : ℕ) : ℝ) =
      (Nat.ceil (-angle / (2 * Real.pi)) : ℝ) - 1 := by
    push_cast [Nat.cast_sub h1]
    ring
  have hle : Nat.ceil (-angle / (2 * Real.pi) - 1) ≤
      Nat.ceil (-angle / (2 * Real.pi)) - 1 := by
    rw [Nat.ceil_le, hcast]
    have := Nat.le_ceil (-angle / (2 * Real.pi))
    linarith
  omega

/-- Second loop of normalize_angle (game/utils.py lines 16-17):
while angle >= 2*pi: angle -= 2*pi. -/
noncomputable def normLoopSub (angle : ℝ) : ℝ :=
  if 2 * Real.pi ≤ angle then normLoopSub (angle - 2 * Real.pi) else angle
termination_by Nat.ceil (angle / (2 * Real.pi))
decreasing_by
  rename_i h
  have h2 : (0:ℝ) < 2 * Real.pi := Real.two_pi_pos
  have hu : 0 < angle / (2 * Real.pi) := div_pos (by linarith) h2
  have h1 : 0 < Nat.ceil (angle / (2 * Real.pi)) := Nat.ceil_pos.mpr hu
  have heq : (angle - 2 * Real.pi) / (2 * Real.pi) =
      angle / (2 * Real.pi) - 1 := by
    field_simp
  rw [heq]
  have hcast : ((Nat.ceil (angle / (2 * Real.pi)) - 1 : ℕ) : ℝ) =
      (Nat.ceil (angle / (2 * Real.pi)) : ℝ) - 1 := by
    push_cast [Nat.cast_sub h1]
    ring
  have hle : Nat.ceil (angle / (2 * Real.pi) - 1) ≤
      Nat.ceil (angle / (2 * Real.pi)) - 1 := by
    rw [Nat.ceil_le, hcast]
    have := Nat.le_ceil (angle / (2 * Real.pi))
    linarith
  omega

/-- normalize_angle (game/utils.py lines 12-18): reduce an angle to
[0, 2*pi) by the two loops above. Its totality in Lean is the
termination claim for the Python while loops. -/
noncomputable def normalize_angle (angle : ℝ) : ℝ :=
  normLoopSub (normLoopNeg angle)

/-- distance (game/utils.py lines 7-9). -/
noncomputable def distance (p1 p2 : ℝ × ℝ) : ℝ :=
  Real.sqrt ((p2.1 - p1.1) ^ 2 + (p2.2 - p1.2) ^ 2)

/-- PhotonEmission (game/physics.py lines 10-15). -/
structure PhotonEmission where
  source_pos : ℝ × ℝ
  emission_angle : ℝ

/-- PhotonEmission.get_photon_directions (game/physics.py lines 17-19). -/
noncomputable def PhotonEmission.get_photon_directions (e : PhotonEmission) :
    ℝ × ℝ :=
  (e.emission_angle, normalize_angle (e.emission_angle + Real.pi))

/-- The point at ray parameter t inside line_circle_intersection
(game/utils.py lines 65-66): line_start + t * (cos angle, sin angle). -/
noncomputable def rayPoint (line_start : ℝ × ℝ) (line_angle t : ℝ) : ℝ × ℝ :=
  (line_start.1 + t * Real.cos line_angle,
   line_start.2 + t * Real.sin line_angle)

/-- Coefficient a = dx*dx + dy*dy of line_circle_intersection
(game/utils.py line 48). -/
noncomputable def lciA (line_angle : ℝ) : ℝ :=
  Real.cos line_angle * Real.cos line_angle +
    Real.sin line_angle * Real.sin line_angle

/-- Coefficient b = 2*(fx*dx + fy*dy) of line_circle_intersection
(game/utils.py line 49). -/
noncomputable def lciB (line_start : ℝ × ℝ) (line_angle : ℝ)
    (circle_center : ℝ × ℝ) : ℝ :=
  2 * ((line_start.1 - circle_center.1) * Real.cos line_angle +
    (line_start.2 - circle_center.2) * Real.sin line_angle)

/-- Coefficient c = fx*fx + fy*fy - r*r of line_circle_intersection
(game/utils.py line 50). -/
def lciC (line_start circle_center : ℝ × ℝ) (circle_radius : ℝ) : ℝ :=
  (line_start.1 - circle_center.1) * (line_start.1 - circle_center.1) +
    (line_start.2 - circle_center.2) * (line_start.2 - circle_center.2) -
    circle_radius * circle_radius

/-- discriminant = b*b - 4*a*c of line_circle_intersection
(game/utils.py line 52). -/
noncomputable def lciDisc (line_start : ℝ × ℝ) (line_angle : ℝ)
    (circle_center : ℝ × ℝ) (circle_radius : ℝ) : ℝ :=
  lciB line_start line_angle circle_center *
      lciB line_start line_angle circle_center -
    4 * lciA line_angle * lciC line_start circle_center circle_radius

/-- line_circle_intersection (game/utils.py lines 29-69). The source
iterates over [t1, t2] keeping the points with t > 0; that is the
filter-then-map below. -/
noncomputable def line_circle_intersection (line_start : ℝ × ℝ)
    (line_angle : ℝ) (circle_center : ℝ × ℝ) (circle_radius : ℝ) :
    List (ℝ × ℝ) :=
  let b := lciB line_start line_angle circle_center
  let discriminant := lciDisc line_start line_angle circle_center circle_radius
  if discriminant < 0 then []
  else
    let sqrt_disc := Real.sqrt discriminant
    let t1 := (-b - sqrt_disc) / (2 * lciA line_angle)
    let t2 := (-b + sqrt_disc) / (2 * lciA line_angle)
    (([t1, t2]).filter (fun t => decide (0 < t))).map
      (fun t => rayPoint line_start line_angle t)

/-- One iteration of the sampling loop of
PETPhysics.calculate_probability_zone (game/physics.py lines 140-159),
folded over the accumulated (pixels, intensities) lists. -/
noncomputable def pzStep (det1_pos : ℝ × ℝ) (dx dy lor_length : ℝ)
    (estimated : ℝ × ℝ) (sigma : ℝ) (matrix : ImageMatrix ℝ)
    (num_samples : ℤ) (acc : List (ℤ × ℤ) × List ℝ) (i : ℕ) :
    List (ℤ × ℤ) × List ℝ :=
  let t : ℝ := if 1 < num_samples then (i : ℝ) / ((num_samples : ℝ) - 1)
    else 0.5
  let sample_x := det1_pos.1 + dx * t * lor_length
  let sample_y := det1_pos.2 + dy * t * lor_length
  match screen_to_pixel matrix sample_x sample_y with
  | none => acc
  | some (row, col) =>
    let dist_from_estimate := distance (sample_x, sample_y) estimated
    let intensity := Real.exp (-(dist_from_estimate ^ 2) / (2 * sigma ^ 2))
    if (row, col) ∈ acc.1 then acc
    else (acc.1 ++ [(row, col)], acc.2 ++ [intensity])

/-- PETPhysics.calculate_probability_zone (game/physics.py lines 105-161).
Returns none where the Python code raises ZeroDivisionError: at
dx = (det2_pos[0]-det1_pos[0]) / lor_length when the two detector
positions coincide (lor_length = 0), and at the num_samples division when
matrix.pixel_size = 0. -/
noncomputable def calculate_probability_zone (det1_pos det2_pos : ℝ × ℝ)
    (tof_delay_diff : ℝ) (grid_size : ℤ) (matrix : ImageMatrix ℝ) :
    Option (List (ℤ × ℤ) × List ℝ) :=
  let lor_length := distance det1_pos det2_pos
  if lor_length = 0 then none
  else if matrix.pixel_size * 0.5 = 0 then none
  else
    let dx := (det2_pos.1 - det1_pos.1) / lor_length
    let dy := (det2_pos.2 - det1_pos.2) / lor_length
    let max_delay : ℝ := (TOF_MAX_DELAY : ℝ) - (TOF_MIN_DELAY : ℝ)
    let ratioPos := 0.5 - (tof_delay_diff / max_delay) * 0.4
    let estimated_pos_along_lor := ratioPos * lor_length
    let estimated_x := det1_pos.1 + dx * estimated_pos_along_lor
    let estimated_y := det1_pos.2 + dy * estimated_pos_along_lor
    let sigma := lor_length * 0.15
    let num_samples := pyInt (lor_length / (matrix.pixel_size * 0.5))
    some ((List.range num_samples.toNat).foldl
      (pzStep det1_pos dx dy lor_length (estimated_x, estimated_y) sigma
        matrix num_samples)
      ([], []))

/-- Model of numpy's global random-generator state (an external library).
Only two facts about it are relied on: np.random.seed(s) makes the state
a function of s alone, and every draw is a deterministic function of the
state. The draws below realize that with a linear-congruential stream. -/
structure RNG where
  state : ℕ

/-- np.random.seed(s): reset the global state from the seed alone. -/
def npSeed (seed : ℕ) : RNG := ⟨seed % 2 ^ 32⟩

/-- Advance the modelled generator by one draw. -/
def rngNext (r : RNG) : RNG := ⟨(r.state * 1103515245 + 12345) % 2 ^ 31⟩

/-- np.random.randint(low, high): one integer draw in [low, high). -/
def npRandint (low high : ℤ) (r : RNG) : ℤ × RNG :=
  (low + (r.state : ℤ) % (high - low), rngNext r)

/-- np.random.random((n, n)): a grid of uniform draws in [0, 1),
advancing the state once per cell. -/
noncomputable def npRandomGrid (n : ℕ) (r : RNG) : (ℕ → ℕ → ℝ) × RNG :=
  ((fun i j => (((r.state + 48271 * (i * n + j)) % 2 ^ 31 : ℕ) : ℝ) / 2 ^ 31),
   ⟨(r.state + 48271 * (n * n)) % 2 ^ 31⟩)

/-- The type of scipy.ndimage.gaussian_filter (an external library
function, deterministic in its input grid and sigma): the embedding is
parametric in it. -/
def GFilter : Type := (ℕ → ℕ → ℝ) → ℝ → (ℕ → ℕ → ℝ)

/-- numpy .astype(float) of a boolean grid. -/
def boolGridToFloat (b : ℕ → ℕ → Bool) : ℕ → ℕ → ℝ :=
  fun y x => if b y x then 1 else 0

/-- numpy .min() over an n-by-n grid (0 on the empty grid, where numpy
raises). -/
noncomputable def gridMin (n : ℕ) (f : ℕ → ℕ → ℝ) : ℝ :=
  if h : 0 < n then
    (Finset.range n ×ˢ Finset.range n).inf'
      ((Finset.nonempty_range_iff.mpr h.ne').product
        (Finset.nonempty_range_iff.mpr h.ne'))
      (fun p => f p.1 p.2)
  else 0

/-- numpy .max() over an n-by-n grid (0 on the empty grid). -/
noncomputable def gridMax (n : ℕ) (f : ℕ → ℕ → ℝ) : ℝ :=
  if h : 0 < n then
    (Finset.range n ×ˢ Finset.range n).sup'
      ((Finset.nonempty_range_iff.mpr h.ne').product
        (Finset.nonempty_range_iff.mpr h.ne'))
      (fun p => f p.1 p.2)
  else 0

/-- create_blob (game/shape_generator.py lines 9-36). -/
noncomputable def create_blob (gf : GFilter) (grid_size : ℕ)
    (seed : Option ℕ) (r : RNG) : Mask × RNG :=
  let r0 := match seed with | some s => npSeed s | none => r
  let offset_range : ℤ := max 1 ((grid_size : ℤ) / 4)
  let (d1, r1) := npRandint (-offset_range) (offset_range + 1) r0
  let center_x : ℤ := (grid_size : ℤ) / 2 + d1
  let (d2, r2) := npRandint (-offset_range) (offset_range + 1) r1
  let center_y : ℤ := (grid_size : ℤ) / 2 + d2
  let (d3, r3) := npRandint (Int.fdiv (-(grid_size : ℤ)) 12)
    (max 1 ((grid_size : ℤ) / 12) + 1) r2
  let radius_x : ℤ := (grid_size : ℤ) / 5 + d3
  let (d4, r4) := npRandint (Int.fdiv (-(grid_size : ℤ)) 12)
    (max 1 ((grid_size : ℤ) / 12) + 1) r3
  let radius_y : ℤ := (grid_size : ℤ) / 5 + d4
  let ellipse : ℕ → ℕ → Bool := fun y x =>
    decide ((((x : ℝ) - (center_x : ℝ)) / ((max 1 radius_x : ℤ) : ℝ)) ^ 2 +
      (((y : ℝ) - (center_y : ℝ)) / ((max 1 radius_y : ℤ) : ℝ)) ^ 2 ≤ 1)
  let (noise0, r5) := npRandomGrid grid_size r4
  let noise1 := gf noise0 ((grid_size : ℝ) / 8)
  let lo := gridMin grid_size noise1
  let hi := gridMax grid_size noise1
  let noise : ℕ → ℕ → ℝ := fun i j => (noise1 i j - lo) / (hi - lo + 1e-6)
  let shape0 : ℕ → ℕ → ℝ := fun y x =>
    (if ellipse y x then (1 : ℝ) else 0) * 0.7 +
      (if 0.5 < noise y x then (1 : ℝ) else 0) * 0.3
  let shape1 := gf shape0 1.5
  (⟨grid_size, grid_size, fun y x => decide (0.5 < shape1 y x)⟩, r5)

/-- create_kidney (game/shape_generator.py lines 39-69). -/
noncomputable def create_kidney (gf : GFilter) (grid_size : ℕ)
    (seed : Option ℕ) (r : RNG) : Mask × RNG :=
  let r0 := match seed with | some s => npSeed s | none => r
  let offset_range : ℤ := max 1 ((grid_size : ℤ) / 5)
  let (d1, r1) := npRandint (-offset_range) (offset_range + 1) r0
  let center_x : ℤ := (grid_size : ℤ) / 2 + d1
  let (d2, r2) := npRandint (-offset_range) (offset_range + 1) r1
  let center_y : ℤ := (grid_size : ℤ) / 2 + d2
  let raw : ℕ → ℕ → Bool := fun y x =>
    let nx : ℝ := ((x : ℝ) - (center_x : ℝ)) / ((grid_size : ℝ) / 4.5)
    let ny : ℝ := ((y : ℝ) - (center_y : ℝ)) / ((grid_size : ℝ) / 6)
    let ellipse_val := nx ^ 2 + ny ^ 2
    let indent := 0.3 * Real.exp (-(((nx + 0.5) ^ 2 + ny ^ 2)) * 3)
    decide (ellipse_val - indent < 1)
  let smoothed := gf (boolGridToFloat raw) 1.2
  (⟨grid_size, grid_size, fun y x => decide (0.5 < smoothed y x)⟩, r2)

/-- math.atan2 (external library function): the argument of the complex
number x + y i, in (-pi, pi]. -/
noncomputable def atan2 (y x : ℝ) : ℝ := Complex.arg ⟨x, y⟩

/-- create_liver (game/shape_generator.py lines 72-110). -/
noncomputable def create_liver (gf : GFilter) (grid_size : ℕ)
    (seed : Option ℕ) (r : RNG) : Mask × RNG :=
  let r0 := match seed with | some s => npSeed s | none => r
  let offset_range : ℤ := max 1 ((grid_size : ℤ) / 6)
  let (d1, r1) := npRandint (-offset_range) (offset_range + 1) r0
  let center_x : ℤ := (grid_size : ℤ) / 2 + d1
  let (d2, r2) := npRandint (-offset_range) (offset_range + 1) r1
  let center_y : ℤ := (grid_size : ℤ) / 2 + d2
  let raw : ℕ → ℕ → Bool := fun y x =>
    let dxv : ℝ := (x : ℝ) - (center_x : ℝ)
    let dyv : ℝ := (y : ℝ) - (center_y : ℝ)
    let angle := atan2 dyv dxv
    let dist := Real.sqrt (dxv ^ 2 + dyv ^ 2)
    let base_radius := (grid_size : ℝ) / 5
    let radius0 := base_radius * (1 +
      0.25 * Real.cos (angle * 2) +
      0.12 * Real.sin (angle * 3) +
      0.08 * Real.cos (angle * 5))
    let radius := if -Real.pi / 2 < angle ∧ angle < Real.pi / 2
      then radius0 * 1.15 else radius0
    decide (dist < radius)
  let smoothed := gf (boolGridToFloat raw) 1.5
  (⟨grid_size, grid_size, fun y x => decide (0.5 < smoothed y x)⟩, r2)

/-- create_heart (game/shape_generator.py lines 113-141). -/
noncomputable def create_heart (gf : GFilter) (grid_size : ℕ)
    (seed : Option ℕ) (r : RNG) : Mask × RNG :=
  let r0 := match seed with | some s => npSeed s | none => r
  let offset_range : ℤ := max 1 ((grid_size : ℤ) / 6)
  let (d1, r1) := npRandint (-offset_range) (offset_range + 1) r0
  let center_x : ℤ := (grid_size : ℤ) / 2 + d1
  let (d2, r2) := npRandint (-offset_range) (offset_range + 1) r1
  let center_y : ℤ := (grid_size : ℤ) / 2 + (grid_size : ℤ) / 10 + d2
  let scale : ℝ := (grid_size : ℝ) / 4.5
  let raw : ℕ → ℕ → Bool := fun y x =>
    let nx : ℝ := ((x : ℝ) - (center_x : ℝ)) / scale
    let ny : ℝ := ((center_y : ℝ) - (y : ℝ)) / scale
    let val := (nx ^ 2 + ny ^ 2 - 1) ^ 3 - nx ^ 2 * ny ^ 3
    decide (val < 0)
  let smoothed := gf (boolGridToFloat raw) 1.2
  (⟨grid_size, grid_size, fun y x => decide (0.5 < smoothed y x)⟩, r2)

/-- The inner while loop of create_multi_region (game/shape_generator.py
lines 159-177): up to 50 attempts to draw a region center far enough
from the already used positions. -/
noncomputable def multiAttempt (grid_size : ℕ) (used : List (ℤ × ℤ)) :
    ℕ → RNG → Option (ℤ × ℤ) × RNG
  | 0, r => (none, r)
  | fuel + 1, r =>
    let (cx, r1) := npRandint ((grid_size : ℤ) / 4) (3 * (grid_size : ℤ) / 4) r
    let (cy, r2) := npRandint ((grid_size : ℤ) / 4) (3 * (grid_size : ℤ) / 4) r1
    let valid := used.all (fun p =>
      ! decide (Real.sqrt ((((cx - p.1 : ℤ)) : ℝ) ^ 2 +
        (((cy - p.2 : ℤ)) : ℝ) ^ 2) < (((grid_size : ℤ) / 5 : ℤ) : ℝ)))
    if valid then (some (cx, cy), r2)
    else multiAttempt grid_size used fuel r2

/-- The outer region loop of create_multi_region (game/shape_generator.py
lines 157-186), one recursion step per region. -/
noncomputable def multiRegions (grid_size : ℕ) :
    ℕ → (ℕ → ℕ → Bool) → List (ℤ × ℤ) → RNG → (ℕ → ℕ → Bool) × RNG
  | 0, shape, _, r => (shape, r)
  | n + 1, shape, used, r =>
    match multiAttempt grid_size used 50 r with
    | (none, r1) => multiRegions grid_size n shape used r1
    | (some (cx, cy), r1) =>
      let (rx, r2) := npRandint (max 2 ((grid_size : ℤ) / 16))
        (max 3 ((grid_size : ℤ) / 8)) r1
      let (ry, r3) := npRandint (max 2 ((grid_size : ℤ) / 16))
        (max 3 ((grid_size : ℤ) / 8)) r2
      let ellipse : ℕ → ℕ → Bool := fun y x =>
        decide ((((x : ℝ) - (cx : ℝ)) / ((max 1 rx : ℤ) : ℝ)) ^ 2 +
          (((y : ℝ) - (cy : ℝ)) / ((max 1 ry : ℤ) : ℝ)) ^ 2 ≤ 1)
      multiRegions grid_size n (fun y x => shape y x || ellipse y x)
        (used ++ [(cx, cy)]) r3

/-- create_multi_region (game/shape_generator.py lines 144-191). -/
noncomputable def create_multi_region (gf : GFilter) (grid_size : ℕ)
    (seed : Option ℕ) (r : RNG) : Mask × RNG :=
  let r0 := match seed with | some s => npSeed s | none => r
  let (num_regions, r1) := npRandint 2 5 r0
  let (shape, r2) := multiRegions grid_size num_regions.toNat
    (fun _ _ => false) [] r1
  let smoothed := gf (boolGridToFloat shape) 1.2
  (⟨grid_size, grid_size, fun y x => decide (0.5 < smoothed y x)⟩, r2)

/-- generate_shape (game/shape_generator.py lines 194-205): dispatch on
the archetype name, defaulting to create_blob. -/
noncomputable def generate_shape (gf : GFilter) (shape_type : String)
    (grid_size : ℕ) (seed : Option ℕ) (r : RNG) : Mask × RNG :=
  if shape_type = "blob" then create_blob gf grid_size seed r
  else if shape_type = "kidney" then create_kidney gf grid_size seed r
  else if shape_type = "liver" then create_liver gf grid_size seed r
  else if shape_type = "heart" then create_heart gf grid_size seed r
  else if shape_type = "multi" then create_multi_region gf grid_size seed r
  else create_blob gf grid_size seed r

/-- The mathematical predicate the spec's ray-circle claim quantifies
over: the point lies on the circle of the given center and radius. -/
def onCircle (p circle_center : ℝ × ℝ) (circle_radius : ℝ) : Prop :=
  (p.1 - circle_center.1) ^ 2 + (p.2 - circle_center.2) ^ 2 = circle_radius ^ 2

/-- Helper: what the two normalize_angle loops compute. The first loop
only adds full turns and ends nonnegative. -/
theorem normLoopNeg_spec (a : ℝ) :
    0 ≤ normLoopNeg a ∧ ∃ k : ℕ, normLoopNeg a = a + k * (2 * Real.pi) := by
  rw [normLoopNeg]
  split_ifs with h
  · obtain ⟨h0, k, hk⟩ := normLoopNeg_spec (a + 2 * Real.pi)
    exact ⟨h0, k + 1, by push_cast; linarith⟩
  · exact ⟨le_of_not_lt h, 0, by simp⟩
termination_by Nat.ceil (-a / (2 * Real.pi))
decreasing_by
  have h2 : (0:ℝ) < 2 * Real.pi := Real.two_pi_pos
  have hu : 0 < -a / (2 * Real.pi) := div_pos (by linarith) h2
  have h1 : 0 < Nat.ceil (-a / (2 * Real.pi)) := Nat.ceil_pos.mpr hu
  have heq : -(a + 2 * Real.pi) / (2 * Real.pi) =
      -a / (2 * Real.pi) - 1 := by
    field_simp
    ring
  rw [heq]
  have hcast : ((Nat.ceil (-a / (2 * Real.pi)) - 1 : ℕ) : ℝ) =
      (Nat.ceil (-a / (2 * Real.pi)) : ℝ) - 1 := by
    push_cast [Nat.cast_sub h1]
    ring
  have hle : Nat.ceil (-a / (2 * Real.pi) - 1) ≤
      Nat.ceil (-a / (2 * Real.pi)) - 1 := by
    rw [Nat.ceil_le, hcast]
    have := Nat.le_ceil (-a / (2 * Real.pi))
    linarith
  omega

/-- Helper: the second loop only subtracts full turns, ends below 2*pi,
and keeps nonnegativity. -/
theorem normLoopSub_spec (a : ℝ) :
    normLoopSub a < 2 * Real.pi ∧ (0 ≤ a → 0 ≤ normLoopSub a) ∧
      ∃ k : ℕ, normLoopSub a = a - k * (2 * Real.pi) := by
  rw [normLoopSub]
  split_ifs with h
  · obtain ⟨h1, h2, k, hk⟩ := normLoopSub_spec (a - 2 * Real.pi)
    have h2π : (0:ℝ) < 2 * Real.pi := Real.two_pi_pos
    exact ⟨h1, fun _ => h2 (by linarith), k + 1, by push_cast; linarith⟩
  · exact ⟨lt_of_not_le h, fun h0 => h0, 0, by simp⟩
termination_by Nat.ceil (a / (2 * Real.pi))
decreasing_by
  have h2 : (0:ℝ) < 2 * Real.pi := Real.two_pi_pos
  have hu : 0 < a / (2 * Real.pi) := div_pos (by linarith) h2
  have h1 : 0 < Nat.ceil (a / (2 * Real.pi)) := Nat.ceil_pos.mpr hu
  have heq : (a - 2 * Real.pi) / (2 * Real.pi) =
      a / (2 * Real.pi) - 1 := by
    field_simp
  rw [heq]
  have hcast : ((Nat.ceil (a / (2 * Real.pi)) - 1 : ℕ) : ℝ) =
      (Nat.ceil (a / (2 * Real.pi)) : ℝ) - 1 := by
    push_cast [Nat.cast_sub h1]
    ring
  have hle : Nat.ceil (a / (2 * Real.pi) - 1) ≤
      Nat.ceil (a / (2 * Real.pi)) - 1 := by
    rw [Nat.ceil_le, hcast]
    have := Nat.le_ceil (a / (2 * Real.pi))
    linarith
  omega

/-- Helper: normalize_angle lands in [0, 2*pi) and differs from its input
by an integer multiple of 2*pi. -/
theorem normalize_angle_props (a : ℝ) :
    0 ≤ normalize_angle a ∧ normalize_angle a < 2 * Real.pi ∧
      ∃ k : ℤ, normalize_angle a = a + k * (2 * Real.pi) := by
  obtain ⟨hn0, k1, hk1⟩ := normLoopNeg_spec a
  obtain ⟨hlt, hge, k2, hk2⟩ := normLoopSub_spec (normLoopNeg a)
  refine ⟨hge hn0, hlt, (k1 : ℤ) - (k2 : ℤ), ?_⟩
  unfold normalize_angle
  rw [hk2, hk1]
  push_cast
  ring

/-- Helper: normalize_angle is the unique representative in [0, 2*pi) of
its input modulo 2*pi. -/
theorem normalize_angle_eq (x y : ℝ) (k : ℤ) (h0 : 0 ≤ y)
    (h2 : y < 2 * Real.pi) (hk : x = y + k * (2 * Real.pi)) :
    normalize_angle x = y := by
  obtain ⟨hn0, hlt, k', hk'⟩ := normalize_angle_props x
  have h2π : (0:ℝ) < 2 * Real.pi := Real.two_pi_pos
  have key : normalize_angle x - y = ((k + k' : ℤ) : ℝ) * (2 * Real.pi) := by
    rw [hk', hk]
    push_cast
    ring
  have hlt1 : ((k + k' : ℤ) : ℝ) * (2 * Real.pi) < 1 * (2 * Real.pi) := by
    rw [one_mul]
    linarith
  have hgt1 : (-1 : ℝ) * (2 * Real.pi) < ((k + k' : ℤ) : ℝ) * (2 * Real.pi) := by
    nlinarith
  have l1 : ((k + k' : ℤ) : ℝ) < 1 := (mul_lt_mul_right h2π).mp hlt1
  have l2 : (-1 : ℝ) < ((k + k' : ℤ) : ℝ) := (mul_lt_mul_right h2π).mp hgt1
  have l1' : (k + k' : ℤ) < 1 := by exact_mod_cast l1
  have l2' : (-1 : ℤ) < (k + k' : ℤ) := by exact_mod_cast l2
  have hzero : k + k' = 0 := by omega
  rw [hzero] at key
  push_cast at key
  linarith

/-- C4: normalize_angle is total (the Lean function terminates on every
real input, negative or arbitrarily large), returns a value in
[0, 2*pi), and differs from its input by an integer multiple of 2*pi. -/
theorem normalize_angle_terminates_in_range (a : ℝ) :
    0 ≤ normalize_angle a ∧ normalize_angle a < 2 * Real.pi ∧
      ∃ k : ℤ, normalize_angle a = a + k * (2 * Real.pi) :=
  normalize_angle_props a

/-- C6: for every PhotonEmission, the two directions returned by
get_photon_directions differ by exactly pi modulo 2*pi:
normalize_angle (direction2 - direction1) = pi. -/
theorem photon_directions_antiparallel (e : PhotonEmission) :
    normalize_angle (e.get_photon_directions.2 - e.get_photon_directions.1) =
      Real.pi := by
  unfold PhotonEmission.get_photon_directions
  obtain ⟨h0, h2, k, hk⟩ := normalize_angle_props (e.emission_angle + Real.pi)
  exact normalize_angle_eq _ _ k Real.pi_pos.le
    (by linarith [Real.pi_pos]) (by rw [hk]; ring)

/-- C2 (amended): calculate_tof_delays with max_possible_distance = 0
raises ZeroDivisionError (modelled: returns none) for every pair of
distances; the zero max distance is not special-cased. -/
theorem tof_zero_max_raises (dist1 dist2 : ℚ) :
    calculate_tof_delays dist1 dist2 0 = none := by
  simp [calculate_tof_delays]

/-- C2 counterexample: at dist1 = 1, dist2 = 2, max_possible_distance = 0
no value is returned (the Python code raises ZeroDivisionError), refuting
that the zero max distance is treated as always simultaneous. -/
theorem tof_zero_max_counterexample : calculate_tof_delays 1 2 0 = none := by
  simp [calculate_tof_delays]

/-- C1 (amended): for equal distances and any nonzero
max_possible_distance, calculate_tof_delays returns
(0, TOF_MIN_DELAY) = (0, 50), not (0, 0). -/
theorem tof_equal_dists (d m : ℚ) (hm : m ≠ 0) :
    calculate_tof_delays d d m = some (0, TOF_MIN_DELAY) := by
  unfold calculate_tof_delays tofDelayDiff
  rw [if_neg hm, if_pos le_rfl]
  norm_num [pyInt, TOF_MIN_DELAY, TOF_MAX_DELAY]

/-- Witness for C1's amended theorem at dist1 = dist2 = 3, max = 7. -/
theorem tof_equal_dists_witness :
    calculate_tof_delays 3 3 7 = some (0, TOF_MIN_DELAY) :=
  tof_equal_dists 3 7 (by norm_num)

/-- C1 counterexample: at dist1 = dist2 = 1, max_possible_distance = 10
the result is (0, 50), not the claimed (0, 0). -/
theorem tof_equal_dists_counterexample :
    calculate_tof_delays 1 1 10 = some (0, 50) ∧
      calculate_tof_delays 1 1 10 ≠ some (0, 0) := by
  constructor
  · norm_num [calculate_tof_delays, tofDelayDiff, pyInt, TOF_MIN_DELAY,
      TOF_MAX_DELAY]
  · norm_num [calculate_tof_delays, tofDelayDiff, pyInt, TOF_MIN_DELAY,
      TOF_MAX_DELAY]

/-- Helper: the distance from a point to itself is zero. -/
theorem distance_self (p : ℝ × ℝ) : distance p p = 0 := by
  simp [distance]

/-- C3 (amended): calculate_probability_zone with coincident detector
positions raises ZeroDivisionError at dx = ... / lor_length (modelled:
returns none); sampling is not skipped, no empty lists are returned. -/
theorem probability_zone_zero_lor_raises (p : ℝ × ℝ) (tof : ℝ) (g : ℤ)
    (m : ImageMatrix ℝ) :
    calculate_probability_zone p p tof g m = none := by
  simp [calculate_probability_zone, distance_self]

/-- C3 counterexample: at det1_pos = det2_pos = (0, 0), the call returns
no value (the Python code raises ZeroDivisionError), in particular not
the claimed pair of empty lists. -/
theorem probability_zone_zero_lor_counterexample :
    calculate_probability_zone (0, 0) (0, 0) 0 10 ⟨10, (0, 0), 1⟩ = none ∧
      calculate_probability_zone (0, 0) (0, 0) 0 10 ⟨10, (0, 0), 1⟩ ≠
        some ([], []) := by
  have h : calculate_probability_zone (0, 0) (0, 0) 0 10 ⟨10, (0, 0), 1⟩ =
      none := by
    simp [calculate_probability_zone, distance_self]
  exact ⟨h, by rw [h]; exact fun hc => Option.noConfusion hc⟩

/-- C9: for every archetype name, grid size and non-None seed,
generate_shape produces a mask that does not depend on the ambient
random-generator state: the generator is re-seeded from the seed alone at
the start of generation, so two calls with the same arguments yield
bit-identical masks. (gf is the external scipy gaussian_filter, the same
deterministic function in both calls.) -/
theorem generate_shape_deterministic (gf : GFilter) (shape_type : String)
    (grid_size : ℕ) (seed : ℕ) (r1 r2 : RNG) :
    (generate_shape gf shape_type grid_size (some seed) r1).1 =
      (generate_shape gf shape_type grid_size (some seed) r2).1 := by
  unfold generate_shape
  split_ifs <;> rfl

/-- C10: whenever screen_to_pixel returns a cell, the clamping keeps both
coordinates inside [0, grid_size - 1]. -/
theorem screen_to_pixel_in_bounds (m : ImageMatrix ℚ) (x y : ℚ)
    (hg : 1 ≤ m.grid_size) (hp : 0 < m.pixel_size) (row col : ℤ)
    (h : screen_to_pixel m x y = some (row, col)) :
    (0 ≤ row ∧ row ≤ m.grid_size - 1) ∧
      (0 ≤ col ∧ col ≤ m.grid_size - 1) := by
  simp only [screen_to_pixel] at h
  split at h
  · exact absurd h (by simp)
  · simp only [Option.some.injEq, Prod.mk.injEq] at h
    obtain ⟨h1, h2⟩ := h
    omega

/-- Witness for C10 on a 4-by-4 grid of unit pixels centered at the
origin: the point (0, 0) maps to cell (2, 2), inside bounds. -/
theorem screen_to_pixel_in_bounds_witness :
    (0 ≤ (2:ℤ) ∧ (2:ℤ) ≤ (4:ℤ) - 1) ∧ (0 ≤ (2:ℤ) ∧ (2:ℤ) ≤ (4:ℤ) - 1) :=
  screen_to_pixel_in_bounds ⟨4, (0, 0), 1⟩ 0 0 (by norm_num) (by norm_num)
    2 2 (by norm_num [screen_to_pixel, ImageMatrix.topLeft, pyInt])

/-- Helper: for a positive max distance the delay difference is the floor
of TOF_MIN_DELAY + normalized * (TOF_MAX_DELAY - TOF_MIN_DELAY). -/
theorem tofDelayDiff_floor (a b m : ℚ) (hm : 0 < m) :
    tofDelayDiff a b m =
      ⌊(50 : ℚ) + min (|a - b| / m) 1 * 450⌋ := by
  have hn0 : (0 : ℚ) ≤ min (|a - b| / m) 1 :=
    le_min (div_nonneg (abs_nonneg _) hm.le) zero_le_one
  have e : (TOF_MIN_DELAY : ℚ) + min (|a - b| / m) 1 *
      ((TOF_MAX_DELAY : ℚ) - (TOF_MIN_DELAY : ℚ)) =
      (50 : ℚ) + min (|a - b| / m) 1 * 450 := by
    norm_num [TOF_MIN_DELAY, TOF_MAX_DELAY]
  unfold tofDelayDiff pyInt
  rw [e, if_pos]
  nlinarith [mul_nonneg hn0 (show (0 : ℚ) ≤ 450 by norm_num)]

/-- C7: for every max_possible_distance > 0, calculate_tof_delays gives
the detector with the smaller distance (photon 1 on ties, comparison
dist1 <= dist2) delay 0 and the other the delay difference, which always
lies in [TOF_MIN_DELAY, TOF_MAX_DELAY] and is monotonically nondecreasing
in |dist1 - dist2|. -/
theorem tof_order_bounds_mono (dist1 dist2 d1 d2 m : ℚ) (hm : 0 < m) :
    calculate_tof_delays dist1 dist2 m =
        (if dist1 ≤ dist2 then some (0, tofDelayDiff dist1 dist2 m)
          else some (tofDelayDiff dist1 dist2 m, 0)) ∧
      TOF_MIN_DELAY ≤ tofDelayDiff dist1 dist2 m ∧
      tofDelayDiff dist1 dist2 m ≤ TOF_MAX_DELAY ∧
      (|dist1 - dist2| ≤ |d1 - d2| →
        tofDelayDiff dist1 dist2 m ≤ tofDelayDiff d1 d2 m) := by
  have hmin0 : ∀ a b : ℚ, (0 : ℚ) ≤ min (|a - b| / m) 1 := fun a b =>
    le_min (div_nonneg (abs_nonneg _) hm.le) zero_le_one
  have hmin1 : ∀ a b : ℚ, min (|a - b| / m) 1 ≤ 1 := fun a b =>
    min_le_right _ _
  refine ⟨?_, ?_, ?_, ?_⟩
  · unfold calculate_tof_delays
    rw [if_neg hm.ne']
  · rw [tofDelayDiff_floor dist1 dist2 m hm]
    have h50 : TOF_MIN_DELAY = ⌊(50 : ℚ)⌋ := by norm_num [TOF_MIN_DELAY]
    rw [h50]
    apply Int.floor_mono
    nlinarith [mul_nonneg (hmin0 dist1 dist2) (show (0 : ℚ) ≤ 450 by norm_num)]
  · rw [tofDelayDiff_floor dist1 dist2 m hm]
    have hq : (50 : ℚ) + min (|dist1 - dist2| / m) 1 * 450 ≤ 500 := by
      nlinarith [mul_le_mul_of_nonneg_right (hmin1 dist1 dist2)
        (show (0 : ℚ) ≤ 450 by norm_num)]
    calc ⌊(50 : ℚ) + min (|dist1 - dist2| / m) 1 * 450⌋
        ≤ ⌊(500 : ℚ)⌋ := Int.floor_mono hq
      _ = TOF_MAX_DELAY := by norm_num [TOF_MAX_DELAY]
  · intro hle
    rw [tofDelayDiff_floor dist1 dist2 m hm, tofDelayDiff_floor d1 d2 m hm]
    apply Int.floor_mono
    have hdiv : |dist1 - dist2| / m ≤ |d1 - d2| / m :=
      (div_le_div_iff_of_pos_right hm).mpr hle
    have hminle : min (|dist1 - dist2| / m) 1 ≤ min (|d1 - d2| / m) 1 :=
      min_le_min hdiv le_rfl
    nlinarith [mul_le_mul_of_nonneg_right hminle (show (0 : ℚ) ≤ 450 by norm_num)]

/-- Witness for C7 at dist1 = 1, dist2 = 2, second pair (0, 4), max = 2. -/
theorem tof_order_bounds_mono_witness :
    calculate_tof_delays 1 2 2 =
        (if (1 : ℚ) ≤ 2 then some (0, tofDelayDiff 1 2 2)
          else some (tofDelayDiff 1 2 2, 0)) ∧
      TOF_MIN_DELAY ≤ tofDelayDiff 1 2 2 ∧
      tofDelayDiff 1 2 2 ≤ TOF_MAX_DELAY ∧
      (|(1 : ℚ) - 2| ≤ |(0 : ℚ) - 4| → tofDelayDiff 1 2 2 ≤ tofDelayDiff 0 4 2) :=
  tof_order_bounds_mono 1 2 0 4 2 (by norm_num)

/-- Helper: embedding (row, col) cell indices into integer pairs is
injective. -/
theorem castPair_injective :
    Function.Injective (fun p : ℕ × ℕ => ((p.1 : ℤ), (p.2 : ℤ))) := by
  rintro ⟨a, b⟩ ⟨c, d⟩ h
  simp only [Prod.mk.injEq, Nat.cast_inj] at h
  obtain ⟨h1, h2⟩ := h
  subst h1
  subst h2
  rfl

/-- Helper: np.sum of a mask counts its set of True cells. -/
theorem maskCount_eq_card (m : Mask) : maskCount m = (trueCells m).card := by
  unfold maskCount trueCells
  rw [Finset.card_image_of_injective _ castPair_injective, ← Finset.sum_product',
    Finset.sum_boole, Nat.cast_id]

/-- Helper: the True cells of the guessed mask are exactly the in-bounds
guessed pixels. -/
theorem trueCells_guessedMask (m : Mask) (g : Finset (ℤ × ℤ)) :
    trueCells (guessedMask m g) = g.filter (fun p => maskInBounds m p) := by
  ext p
  obtain ⟨a, b⟩ := p
  simp only [trueCells, guessedMask, maskInBounds, Finset.mem_image,
    Finset.mem_filter, Finset.mem_product, Finset.mem_range,
    decide_eq_true_eq, Prod.mk.injEq]
  constructor
  · rintro ⟨⟨x, y⟩, ⟨⟨hx, hy⟩, hg, hxr, hyc⟩, rfl, rfl⟩
    refine ⟨hg, ?_, ?_, ?_, ?_⟩ <;> omega
  · rintro ⟨hg, h0a, har, h0b, hbc⟩
    refine ⟨(a.toNat, b.toNat), ⟨⟨by omega, by omega⟩, ?_, by omega, by omega⟩,
      by omega, by omega⟩
    rw [Int.toNat_of_nonneg h0a, Int.toNat_of_nonneg h0b]
    exact hg

/-- Helper: the intersection count of the true and guessed masks is the
cardinality of the intersection of the two cell sets. -/
theorem maskInterCount_eq_card (m : Mask) (g : Finset (ℤ × ℤ)) :
    maskInterCount m (guessedMask m g) =
      ((g.filter (fun p => maskInBounds m p)) ∩ trueCells m).card := by
  rw [← trueCells_guessedMask m g]
  unfold maskInterCount trueCells
  dsimp only [guessedMask]
  rw [← Finset.image_inter _ _ castPair_injective, ← Finset.filter_and,
    Finset.card_image_of_injective _ castPair_injective,
    ← Finset.sum_product', Finset.sum_boole, Nat.cast_id]
  congr 1
  apply Finset.filter_congr
  intro x _
  simp only [Bool.and_eq_true, decide_eq_true_eq]
  tauto

/-- Helper: filtering the guessed pixels to the mask bounds leaves the
guessed mask unchanged (out-of-bounds guesses are ignored anyway). -/
theorem guessedMask_filter (m : Mask) (g : Finset (ℤ × ℤ)) :
    guessedMask m (g.filter (fun p => maskInBounds m p)) = guessedMask m g := by
  unfold guessedMask
  congr 1
  funext r c
  rw [decide_eq_decide]
  simp only [Finset.mem_filter, maskInBounds]
  constructor
  · rintro ⟨⟨hg, _⟩, h1, h2⟩
    exact ⟨hg, h1, h2⟩
  · rintro ⟨hg, h1, h2⟩
    refine ⟨⟨hg, Int.natCast_nonneg r, by exact_mod_cast h1,
      Int.natCast_nonneg c, by exact_mod_cast h2⟩, h1, h2⟩

/-- Helper: every True cell of a mask is in bounds. -/
theorem trueCells_inBounds (m : Mask) :
    ∀ p ∈ trueCells m, maskInBounds m p := by
  intro p hp
  simp only [trueCells, Finset.mem_image, Finset.mem_filter,
    Finset.mem_product, Finset.mem_range] at hp
  obtain ⟨⟨x, y⟩, ⟨⟨hx, hy⟩, _⟩, rfl⟩ := hp
  refine ⟨?_, ?_, ?_, ?_⟩ <;> simp <;> omega

/-- Helper: the Dice score in terms of cell-set cardinalities. -/
theorem dice_score_eq (m : Mask) (g : Finset (ℤ × ℤ)) :
    calculate_dice_score m g =
      if (trueCells m).card + (g.filter (fun p => maskInBounds m p)).card = 0
      then 1
      else 2 * (((g.filter (fun p => maskInBounds m p)) ∩ trueCells m).card : ℚ) /
        (((trueCells m).card : ℚ) +
          ((g.filter (fun p => maskInBounds m p)).card : ℚ)) := by
  have hB : maskCount (guessedMask m g) =
      (g.filter (fun p => maskInBounds m p)).card := by
    rw [maskCount_eq_card, trueCells_guessedMask]
  simp only [calculate_dice_score]
  rw [maskCount_eq_card m, hB, maskInterCount_eq_card m g]

/-- C8: calculate_dice_score ignores out-of-bounds guesses, computes
2|A meet B| / (|A| + |B|) on the in-bounds guess set, returns 1 when both
sets are empty, returns 1 when the guesses are exactly the true cells,
and always lands in [0, 1]. -/
theorem dice_score_correct (m : Mask) (g : Finset (ℤ × ℤ)) :
    calculate_dice_score m g =
        calculate_dice_score m (g.filter (fun p => maskInBounds m p)) ∧
      ((trueCells m).card + (g.filter (fun p => maskInBounds m p)).card = 0 →
        calculate_dice_score m g = 1) ∧
      ((trueCells m).card + (g.filter (fun p => maskInBounds m p)).card ≠ 0 →
        calculate_dice_score m g =
          2 * (((g.filter (fun p => maskInBounds m p)) ∩ trueCells m).card : ℚ) /
            (((trueCells m).card : ℚ) +
              ((g.filter (fun p => maskInBounds m p)).card : ℚ))) ∧
      (g = trueCells m → calculate_dice_score m g = 1) ∧
      0 ≤ calculate_dice_score m g ∧ calculate_dice_score m g ≤ 1 := by
  refine ⟨?_, ?_, ?_, ?_, ?_⟩
  · simp only [calculate_dice_score, guessedMask_filter]
  · intro h
    rw [dice_score_eq, if_pos h]
  · intro h
    rw [dice_score_eq, if_neg h]
  · intro hge
    subst hge
    have hfilter : (trueCells m).filter (fun p => maskInBounds m p) =
        trueCells m := Finset.filter_eq_self.mpr (trueCells_inBounds m)
    rw [dice_score_eq, hfilter, Finset.inter_self]
    by_cases hA : (trueCells m).card = 0
    · rw [if_pos (by omega)]
    · rw [if_neg (by omega)]
      have hQ : ((trueCells m).card : ℚ) ≠ 0 := Nat.cast_ne_zero.mpr hA
      field_simp
      ring
  · rw [dice_score_eq]
    split_ifs with h
    · norm_num
    · have hI1 : ((g.filter (fun p => maskInBounds m p)) ∩ trueCells m).card ≤
          (trueCells m).card :=
        Finset.card_le_card Finset.inter_subset_right
      have hI2 : ((g.filter (fun p => maskInBounds m p)) ∩ trueCells m).card ≤
          (g.filter (fun p => maskInBounds m p)).card :=
        Finset.card_le_card Finset.inter_subset_left
      have hpos : (0 : ℚ) < ((trueCells m).card : ℚ) +
          ((g.filter (fun p => maskInBounds m p)).card : ℚ) := by
        have : 0 < (trueCells m).card +
            (g.filter (fun p => maskInBounds m p)).card := Nat.pos_of_ne_zero h
        exact_mod_cast this
      constructor
      · positivity
      · rw [div_le_one hpos]
        have : 2 * ((g.filter (fun p => maskInBounds m p)) ∩ trueCells m).card ≤
            (trueCells m).card +
              (g.filter (fun p => maskInBounds m p)).card := by omega
        exact_mod_cast this

/-- Helper: the quadratic's leading coefficient is cos^2 + sin^2 = 1. -/
theorem lciA_eq_one (θ : ℝ) : lciA θ = 1 := by
  unfold lciA
  rw [← Real.cos_sq_add_sin_sq θ]
  ring

/-- Helper: the discriminant in terms of the b and c coefficients. -/
theorem lciDisc_eq (s : ℝ × ℝ) (θ : ℝ) (cc : ℝ × ℝ) (r : ℝ) :
    lciDisc s θ cc r = lciB s θ cc ^ 2 - 4 * lciC s cc r := by
  unfold lciDisc
  rw [lciA_eq_one]
  ring

/-- Helper: a ray point lies on the circle iff its parameter is a root of
the quadratic t^2 + b t + c. -/
theorem onCircle_rayPoint_iff (s : ℝ × ℝ) (θ : ℝ) (cc : ℝ × ℝ) (r t : ℝ) :
    onCircle (rayPoint s θ t) cc r ↔
      t ^ 2 + lciB s θ cc * t + lciC s cc r = 0 := by
  unfold onCircle rayPoint lciB lciC
  dsimp only
  constructor
  · intro h
    linear_combination h - t ^ 2 * Real.sin_sq_add_cos_sq θ
  · intro h
    linear_combination h + t ^ 2 * Real.sin_sq_add_cos_sq θ

/-- Helper: roots of a monic quadratic with nonnegative discriminant. -/
theorem quad_root_iff (b c t : ℝ) (hd : 0 ≤ b ^ 2 - 4 * c) :
    t ^ 2 + b * t + c = 0 ↔
      t = (-b - Real.sqrt (b ^ 2 - 4 * c)) / 2 ∨
        t = (-b + Real.sqrt (b ^ 2 - 4 * c)) / 2 := by
  have hsd : Real.sqrt (b ^ 2 - 4 * c) ^ 2 = b ^ 2 - 4 * c := Real.sq_sqrt hd
  constructor
  · intro h
    have factor : (t - (-b - Real.sqrt (b ^ 2 - 4 * c)) / 2) *
        (t - (-b + Real.sqrt (b ^ 2 - 4 * c)) / 2) = 0 := by
      linear_combination h - (1 / 4) * hsd
    rcases mul_eq_zero.mp factor with h1 | h1
    · exact Or.inl (sub_eq_zero.mp h1)
    · exact Or.inr (sub_eq_zero.mp h1)
  · rintro (rfl | rfl) <;> linear_combination (1 / 4) * hsd

/-- Helper: a ray point is on the circle iff its parameter is one of the
two closed-form roots, once the discriminant is nonnegative. -/
theorem onCircle_iff_roots (s : ℝ × ℝ) (θ : ℝ) (cc : ℝ × ℝ) (r t : ℝ)
    (hd : 0 ≤ lciDisc s θ cc r) :
    onCircle (rayPoint s θ t) cc r ↔
      (t = (-lciB s θ cc - Real.sqrt (lciDisc s θ cc r)) / 2 ∨
        t = (-lciB s θ cc + Real.sqrt (lciDisc s θ cc r)) / 2) := by
  rw [onCircle_rayPoint_iff, lciDisc_eq]
  exact quad_root_iff _ _ _ (by rw [← lciDisc_eq s θ cc r]; exact hd)

/-- Helper: the returned list in closed form for nonnegative
discriminant. -/
theorem lci_explicit (s : ℝ × ℝ) (θ : ℝ) (cc : ℝ × ℝ) (r : ℝ)
    (hd : ¬lciDisc s θ cc r < 0) :
    line_circle_intersection s θ cc r =
      (([(-lciB s θ cc - Real.sqrt (lciDisc s θ cc r)) / 2,
          (-lciB s θ cc + Real.sqrt (lciDisc s θ cc r)) / 2]).filter
        (fun t => decide (0 < t))).map (fun t => rayPoint s θ t) := by
  simp only [line_circle_intersection, lciA_eq_one, mul_one]
  rw [if_neg hd]

/-- C5: line_circle_intersection returns exactly the ray/circle
intersection points with parameter t > 0 (t = 0 excluded), listed in
ascending order of t; the empty list when the discriminant is negative;
and, for an origin strictly inside the circle, exactly the one point at
the analytic positive root. -/
theorem line_circle_intersection_correct (s : ℝ × ℝ) (θ : ℝ) (cc : ℝ × ℝ)
    (r : ℝ) (hr : 0 < r) :
    (lciDisc s θ cc r < 0 → line_circle_intersection s θ cc r = []) ∧
      (∃ ts : List ℝ, ts.Sorted (· ≤ ·) ∧
        line_circle_intersection s θ cc r = ts.map (fun t => rayPoint s θ t) ∧
        (∀ t : ℝ, t ∈ ts ↔ 0 < t ∧ onCircle (rayPoint s θ t) cc r)) ∧
      (∀ p : ℝ × ℝ, p ∈ line_circle_intersection s θ cc r ↔
        ∃ t : ℝ, 0 < t ∧ p = rayPoint s θ t ∧ onCircle p cc r) ∧
      (lciC s cc r < 0 →
        line_circle_intersection s θ cc r =
          [rayPoint s θ ((-lciB s θ cc + Real.sqrt (lciDisc s θ cc r)) /
            (2 * lciA θ))]) := by
  by_cases hd : lciDisc s θ cc r < 0
  · have hempty : line_circle_intersection s θ cc r = [] := by
      unfold line_circle_intersection
      rw [if_pos hd]
    have hnoroot : ∀ t : ℝ, ¬onCircle (rayPoint s θ t) cc r := by
      intro t hc
      rw [onCircle_rayPoint_iff] at hc
      have hge : 0 ≤ lciDisc s θ cc r := by
        rw [lciDisc_eq]
        nlinarith [hc, sq_nonneg (2 * t + lciB s θ cc)]
      linarith
    refine ⟨fun _ => hempty, ⟨[], by simp, by simp [hempty], ?_⟩, ?_, ?_⟩
    · intro t
      simp only [List.not_mem_nil, false_iff]
      rintro ⟨_, hc⟩
      exact hnoroot t hc
    · intro p
      rw [hempty]
      simp only [List.not_mem_nil, false_iff]
      rintro ⟨t, _, rfl, hc⟩
      exact hnoroot t hc
    · intro hCneg
      exfalso
      have hge : 0 ≤ lciDisc s θ cc r := by
        rw [lciDisc_eq]
        nlinarith [sq_nonneg (lciB s θ cc)]
      linarith
  · have hd' : 0 ≤ lciDisc s θ cc r := not_lt.mp hd
    have hsd0 : 0 ≤ Real.sqrt (lciDisc s θ cc r) := Real.sqrt_nonneg _
    have ht12 : (-lciB s θ cc - Real.sqrt (lciDisc s θ cc r)) / 2 ≤
        (-lciB s θ cc + Real.sqrt (lciDisc s θ cc r)) / 2 := by linarith
    have hmemts : ∀ t : ℝ,
        t ∈ ([(-lciB s θ cc - Real.sqrt (lciDisc s θ cc r)) / 2,
            (-lciB s θ cc + Real.sqrt (lciDisc s θ cc r)) / 2]).filter
          (fun t => decide (0 < t)) ↔
          0 < t ∧ onCircle (rayPoint s θ t) cc r := by
      intro t
      rw [List.mem_filter]
      rw [onCircle_iff_roots s θ cc r t hd']
      simp only [List.mem_cons, List.not_mem_nil, or_false, decide_eq_true_eq]
      tauto
    have hsort : (([(-lciB s θ cc - Real.sqrt (lciDisc s θ cc r)) / 2,
        (-lciB s θ cc + Real.sqrt (lciDisc s θ cc r)) / 2]).filter
          (fun t => decide (0 < t))).Sorted (· ≤ ·) := by
      have hs2 : ([(-lciB s θ cc - Real.sqrt (lciDisc s θ cc r)) / 2,
          (-lciB s θ cc + Real.sqrt (lciDisc s θ cc r)) / 2] :
            List ℝ).Sorted (· ≤ ·) := by
        simp [List.sorted_cons, ht12]
      exact hs2.filter _
    refine ⟨fun h => absurd h hd, ⟨_, hsort, lci_explicit s θ cc r hd, hmemts⟩,
      ?_, ?_⟩
    · intro p
      rw [lci_explicit s θ cc r hd]
      simp only [List.mem_map]
      constructor
      · rintro ⟨t, ht, rfl⟩
        obtain ⟨hpos, hcirc⟩ := (hmemts t).mp ht
        exact ⟨t, hpos, rfl, hcirc⟩
      · rintro ⟨t, hpos, rfl, hcirc⟩
        exact ⟨t, (hmemts t).mpr ⟨hpos, hcirc⟩, rfl⟩
    · intro hCneg
      rw [lci_explicit s θ cc r hd, lciA_eq_one, mul_one]
      have hsq : Real.sqrt (lciDisc s θ cc r) ^ 2 = lciDisc s θ cc r :=
        Real.sq_sqrt hd'
      have hprod : ((-lciB s θ cc - Real.sqrt (lciDisc s θ cc r)) / 2) *
          ((-lciB s θ cc + Real.sqrt (lciDisc s θ cc r)) / 2) =
            lciC s cc r := by
        linear_combination (-1 / 4) * hsq + (-1 / 4) * lciDisc_eq s θ cc r
      have ht2pos : 0 < (-lciB s θ cc + Real.sqrt (lciDisc s θ cc r)) / 2 := by
        by_contra hcon
        push_neg at hcon
        have h1 : (-lciB s θ cc - Real.sqrt (lciDisc s θ cc r)) / 2 ≤ 0 :=
          le_trans ht12 hcon
        have h2 : 0 ≤ ((-lciB s θ cc - Real.sqrt (lciDisc s θ cc r)) / 2) *
            ((-lciB s θ cc + Real.sqrt (lciDisc s θ cc r)) / 2) := by
          nlinarith [h1, hcon]
        rw [hprod] at h2
        linarith
      have ht1neg : ¬(0 < (-lciB s θ cc - Real.sqrt (lciDisc s θ cc r)) / 2) := by
        intro hcon
        have h2 : 0 < ((-lciB s θ cc - Real.sqrt (lciDisc s θ cc r)) / 2) *
            ((-lciB s θ cc + Real.sqrt (lciDisc s θ cc r)) / 2) :=
          mul_pos hcon (lt_of_lt_of_le hcon ht12)
        rw [hprod] at h2
        linarith
      simp [List.filter, ht1neg, ht2pos]

/-- Witness for C5: origin at the circle center, angle 0, unit radius
(an origin strictly inside the circle). -/
theorem line_circle_intersection_correct_witness :
    (lciDisc ((0 : ℝ), (0 : ℝ)) 0 ((0 : ℝ), (0 : ℝ)) 1 < 0 →
        line_circle_intersection ((0 : ℝ), (0 : ℝ)) 0 ((0 : ℝ), (0 : ℝ)) 1 = []) ∧
      (∃ ts : List ℝ, ts.Sorted (· ≤ ·) ∧
        line_circle_intersection ((0 : ℝ), (0 : ℝ)) 0 ((0 : ℝ), (0 : ℝ)) 1 =
          ts.map (fun t => rayPoint ((0 : ℝ), (0 : ℝ)) 0 t) ∧
        (∀ t : ℝ, t ∈ ts ↔ 0 < t ∧
          onCircle (rayPoint ((0 : ℝ), (0 : ℝ)) 0 t) ((0 : ℝ), (0 : ℝ)) 1)) ∧
      (∀ p : ℝ × ℝ,
        p ∈ line_circle_intersection ((0 : ℝ), (0 : ℝ)) 0 ((0 : ℝ), (0 : ℝ)) 1 ↔
        ∃ t : ℝ, 0 < t ∧ p = rayPoint ((0 : ℝ), (0 : ℝ)) 0 t ∧
          onCircle p ((0 : ℝ), (0 : ℝ)) 1) ∧
      (lciC ((0 : ℝ), (0 : ℝ)) ((0 : ℝ), (0 : ℝ)) 1 < 0 →
        line_circle_intersection ((0 : ℝ), (0 : ℝ)) 0 ((0 : ℝ), (0 : ℝ)) 1 =
          [rayPoint ((0 : ℝ), (0 : ℝ)) 0
            ((-lciB ((0 : ℝ), (0 : ℝ)) 0 ((0 : ℝ), (0 : ℝ)) +
              Real.sqrt (lciDisc ((0 : ℝ), (0 : ℝ)) 0 ((0 : ℝ), (0 : ℝ)) 1)) /
              (2 * lciA 0))]) :=
  line_circle_intersection_correct ((0 : ℝ), (0 : ℝ)) 0 ((0 : ℝ), (0 : ℝ)) 1
    (by norm_num)
